import Mathlib

/-!
Verification development for the Jira AI Breakdown browser extension
(popup.js).  The definitions below are a shallow embedding of the
extension's issue-creation orchestration and metadata-resolution
pipeline: the Groq generation adapter's response post-processing, the
status-list deduplication, the ADF (rich-text document) serialization
and text extraction, the status-transition helper, the subtask-type
detection cascade, and the onConfirm creation orchestrator.  Remote
calls are modelled by environments supplying each call's outcome, and
each operation additionally returns the trace of calls it issued.
-/

/- ───────────────────────── JS string primitives ───────────────────────── -/

/-- Whitespace test modelling the characters relevant to JavaScript's
`String.prototype.trim` and the regex class `\s` (space, tab, LF, CR,
VT, FF) on the inputs this program handles. -/
def jsWsB (c : Char) : Bool :=
  c = ' ' || c = '\t' || c = '\n' || c = '\r' || c = Char.ofNat 11 || c = Char.ofNat 12

/-- The backtick character. -/
def btick : Char := Char.ofNat 96

/-- The left brace character. -/
def lbraceC : Char := Char.ofNat 123

/-- The right brace character. -/
def rbraceC : Char := Char.ofNat 125

/-- Trim whitespace from both ends of a character list, as JavaScript
`trim` does. -/
def trimL (l : List Char) : List Char :=
  ((l.dropWhile jsWsB).reverse.dropWhile jsWsB).reverse

/-- JavaScript `String.prototype.trim`. -/
def jsTrimStr (s : String) : String :=
  String.mk (trimL s.toList)

/-- JavaScript `Array.prototype.join(' ')`. -/
def joinSp : List String → String
  | [] => ""
  | [a] => a
  | a :: rest => a ++ " " ++ joinSp rest

/-- Substring test over character lists: does `needle` occur
contiguously inside `hay`? -/
def listContains (hay needle : List Char) : Bool :=
  (List.range (hay.length + 1)).any
    (fun i => (hay.drop i).take needle.length == needle)

/-- JavaScript `String.prototype.includes`. -/
def strContains (hay needle : String) : Bool :=
  listContains hay.toList needle.toList

/-- JavaScript `String.prototype.toLowerCase` (character-wise). -/
def jsToLower (s : String) : String := String.mk (s.toList.map Char.toLower)

/-- The string is nonempty and starts with a non-whitespace character. -/
def headNonWs (s : String) : Bool :=
  match s.toList with
  | [] => false
  | c :: _ => !jsWsB c

/-- The string is nonempty and ends with a non-whitespace character. -/
def lastNonWs (s : String) : Bool :=
  match s.toList.reverse with
  | [] => false
  | c :: _ => !jsWsB c

/- ───────────────────────────── JSON values ───────────────────────────── -/

/-- JSON values, as produced by the JavaScript runtime's `JSON.parse`. -/
inductive JVal where
  | null
  | bool (b : Bool)
  | num (q : ℚ)
  | str (s : String)
  | arr (elems : List JVal)
  | obj (fields : List (String × JVal))

/-- Digit list to natural number. -/
def natOfDigits (l : List Char) : Nat :=
  l.foldl (fun n c => n * 10 + (c.toNat - 48)) 0

/-- Parse a JSON number (sign, integer part, optional fraction and
exponent) from a character list. -/
def parseNumber (cs : List Char) : Option (ℚ × List Char) :=
  let signed := match cs with
    | c :: t => if c = '-' then (true, t) else (false, cs)
    | [] => (false, cs)
  let neg := signed.1
  let cs1 := signed.2
  let intDigits := cs1.takeWhile Char.isDigit
  let cs2 := cs1.dropWhile Char.isDigit
  if intDigits = [] then none
  else if intDigits.length > 1 && intDigits.headD '0' = '0' then none
  else
    let v0 : ℚ := (natOfDigits intDigits : ℚ)
    let fracStep : Option (ℚ × List Char) :=
      match cs2 with
      | '.' :: cs3 =>
        let fracDigits := cs3.takeWhile Char.isDigit
        if fracDigits = [] then none
        else some (v0 + (natOfDigits fracDigits : ℚ) / (10 : ℚ) ^ fracDigits.length,
                   cs3.dropWhile Char.isDigit)
      | _ => some (v0, cs2)
    match fracStep with
    | none => none
    | some (v1, cs4) =>
      match cs4 with
      | 'e' :: cs5 =>
        let esigned := match cs5 with
          | c :: t => if c = '-' then (true, t) else if c = '+' then (false, t) else (false, cs5)
          | [] => (false, cs5)
        let eDigits := esigned.2.takeWhile Char.isDigit
        if eDigits = [] then none
        else
          let e := natOfDigits eDigits
          let v2 := if esigned.1 then v1 / (10 : ℚ) ^ e else v1 * (10 : ℚ) ^ e
          some ((if neg then -v2 else v2), esigned.2.dropWhile Char.isDigit)
      | 'E' :: cs5 =>
        let esigned := match cs5 with
          | c :: t => if c = '-' then (true, t) else if c = '+' then (false, t) else (false, cs5)
          | [] => (false, cs5)
        let eDigits := esigned.2.takeWhile Char.isDigit
        if eDigits = [] then none
        else
          let e := natOfDigits eDigits
          let v2 := if esigned.1 then v1 / (10 : ℚ) ^ e else v1 * (10 : ℚ) ^ e
          some ((if neg then -v2 else v2), esigned.2.dropWhile Char.isDigit)
      | _ => some ((if neg then -v1 else v1), cs4)

/-- Hexadecimal digit value. -/
def hexVal (c : Char) : Option Nat :=
  if '0' ≤ c && c ≤ '9' then some (c.toNat - 48)
  else if 'a' ≤ c && c ≤ 'f' then some (c.toNat - 87)
  else if 'A' ≤ c && c ≤ 'F' then some (c.toNat - 55)
  else none

/-- Parse the contents of a JSON string after the opening quote,
returning the decoded characters and the remainder after the closing
quote. -/
def parseStrChars : Nat → List Char → Option (List Char × List Char)
  | 0, _ => none
  | fuel + 1, cs =>
    match cs with
    | [] => none
    | c :: rest =>
      if c = '"' then some ([], rest)
      else if c = '\\' then
        match rest with
        | [] => none
        | e :: rest2 =>
          if e = '"' then (parseStrChars fuel rest2).map (fun p => ('"' :: p.1, p.2))
          else if e = '\\' then (parseStrChars fuel rest2).map (fun p => ('\\' :: p.1, p.2))
          else if e = '/' then (parseStrChars fuel rest2).map (fun p => ('/' :: p.1, p.2))
          else if e = 'n' then (parseStrChars fuel rest2).map (fun p => ('\n' :: p.1, p.2))
          else if e = 't' then (parseStrChars fuel rest2).map (fun p => ('\t' :: p.1, p.2))
          else if e = 'r' then (parseStrChars fuel rest2).map (fun p => ('\r' :: p.1, p.2))
          else if e = 'b' then (parseStrChars fuel rest2).map (fun p => (Char.ofNat 8 :: p.1, p.2))
          else if e = 'f' then (parseStrChars fuel rest2).map (fun p => (Char.ofNat 12 :: p.1, p.2))
          else if e = 'u' then
            match rest2 with
            | h1 :: h2 :: h3 :: h4 :: rest3 =>
              match hexVal h1, hexVal h2, hexVal h3, hexVal h4 with
              | some a, some b, some c2, some d =>
                (parseStrChars fuel rest3).map
                  (fun p => (Char.ofNat (((a * 16 + b) * 16 + c2) * 16 + d) :: p.1, p.2))
              | _, _, _, _ => none
            | _ => none
          else none
      else if c.toNat < 32 then none
      else (parseStrChars fuel rest).map (fun p => (c :: p.1, p.2))

mutual

/-- Parse one JSON value (fuel-indexed recursive-descent). -/
def parseVal : Nat → List Char → Option (JVal × List Char)
  | 0, _ => none
  | fuel + 1, cs =>
    match cs.dropWhile jsWsB with
    | [] => none
    | c :: rest =>
      if c = 'n' then
        match rest with
        | 'u' :: 'l' :: 'l' :: r => some (.null, r)
        | _ => none
      else if c = 't' then
        match rest with
        | 'r' :: 'u' :: 'e' :: r => some (.bool true, r)
        | _ => none
      else if c = 'f' then
        match rest with
        | 'a' :: 'l' :: 's' :: 'e' :: r => some (.bool false, r)
        | _ => none
      else if c = '"' then
        (parseStrChars fuel rest).map (fun p => (.str (String.mk p.1), p.2))
      else if c = '[' then
        match rest.dropWhile jsWsB with
        | ']' :: r => some (.arr [], r)
        | _ => (parseArrItems fuel rest).map (fun p => (.arr p.1, p.2))
      else if c = lbraceC then
        match rest.dropWhile jsWsB with
        | d :: r2 =>
          if d = rbraceC then some (.obj [], r2)
          else (parseObjItems fuel rest).map (fun p => (.obj p.1, p.2))
        | [] => none
      else
        (parseNumber (c :: rest)).map (fun p => (.num p.1, p.2))

/-- Parse the items of a JSON array after the opening bracket. -/
def parseArrItems : Nat → List Char → Option (List JVal × List Char)
  | 0, _ => none
  | fuel + 1, cs =>
    match parseVal fuel cs with
    | none => none
    | some (v, r) =>
      match r.dropWhile jsWsB with
      | ',' :: r2 => (parseArrItems fuel r2).map (fun p => (v :: p.1, p.2))
      | ']' :: r2 => some ([v], r2)
      | _ => none

/-- Parse the fields of a JSON object after the opening brace. -/
def parseObjItems : Nat → List Char → Option (List (String × JVal) × List Char)
  | 0, _ => none
  | fuel + 1, cs =>
    match cs.dropWhile jsWsB with
    | [] => none
    | c :: rest =>
      if c = '"' then
        match parseStrChars fuel rest with
        | none => none
        | some (key, r) =>
          match r.dropWhile jsWsB with
          | ':' :: r2 =>
            match parseVal fuel r2 with
            | none => none
            | some (v, r3) =>
              match r3.dropWhile jsWsB with
              | ',' :: r4 => (parseObjItems fuel r4).map (fun p => ((String.mk key, v) :: p.1, p.2))
              | d :: r4 => if d = rbraceC then some ([(String.mk key, v)], r4) else none
              | [] => none
          | _ => none
      else none

end

/-- Model of the JavaScript runtime's `JSON.parse`: parse a complete
JSON document (surrounding whitespace allowed), or fail. -/
def jsonParse (s : String) : Option JVal :=
  match parseVal (2 * s.length + 2) s.toList with
  | some (v, rest) => if rest.dropWhile jsWsB = [] then some v else none
  | none => none

/- ─────────────────────── Groq generation adapter ─────────────────────── -/

/-- Model of `raw.replace(/^```json\s*/i, '')` in `groqGenerate`: if the
body starts with a (case-insensitive) ```json fence marker, remove it
together with the following whitespace. -/
def stripPrefixFence (s : String) : String :=
  let cs := s.toList
  if (cs.take 7).map Char.toLower = [btick, btick, btick, 'j', 's', 'o', 'n'] then
    String.mk ((cs.drop 7).dropWhile jsWsB)
  else s

/-- Model of `.replace(/```\s*$/, '')` in `groqGenerate`: if the body
ends with a ``` fence marker followed only by whitespace, remove that
suffix. -/
def stripSuffixFence (s : String) : String :=
  let r := s.toList.reverse
  let r2 := r.dropWhile jsWsB
  if r2.take 3 = [btick, btick, btick] then String.mk ((r2.drop 3).reverse)
  else s

/-- The full defensive stripping `groqGenerate` applies to the response
body before `JSON.parse`: prefix-fence replace, suffix-fence replace,
then `trim()`. -/
def stripFences (raw : String) : String :=
  jsTrimStr (stripSuffixFence (stripPrefixFence raw))

/-- JavaScript property access `v.k` on a parsed JSON value: accessing
a property of `null` throws a TypeError (modelled as the error case);
on an object it yields the property's value (last duplicate key wins,
as in the JS runtime), and on any other value it yields `undefined`
(modelled as `none`). -/
def jsGetField : JVal → String → Except Unit (Option JVal)
  | .null, _ => .error ()
  | .obj fields, k => .ok ((fields.reverse.find? (fun p => p.1 = k)).map (·.2))
  | _, _ => .ok none

/-- The `subtasks` field of a parsed value, when it is an array. -/
def subtasksArrOf (v : JVal) : Option (List JVal) :=
  match jsGetField v "subtasks" with
  | .ok (some (.arr l)) => some l
  | _ => none

/-- Errors surfaced by `groqGenerate`'s response handling: the
"AI returned invalid JSON" error, the "AI response missing subtasks
array" error, and the JavaScript TypeError raised by accessing
`parsed.subtasks` when `parsed` is `null`. -/
inductive GroqErr where
  | invalidJSON
  | missingSubtasks
  | typeError
deriving DecidableEq

/-- Post-parse handling in `groqGenerate`: check
`!parsed.subtasks || !Array.isArray(parsed.subtasks)` and truncate the
subtasks array to the requested count when it is longer.  Returns the
parsed value together with the final subtasks array. -/
def groqProcessParsed (parsed : JVal) (numSubtasks : Nat) :
    Except GroqErr (JVal × List JVal) :=
  match jsGetField parsed "subtasks" with
  | .error _ => .error .typeError
  | .ok f =>
    match f with
    | some (.arr l) =>
      .ok (parsed, if l.length > numSubtasks then l.take numSubtasks else l)
    | _ => .error .missingSubtasks

/-- Response handling of `groqGenerate` from the raw response body:
strip fences, parse, validate the subtasks array, truncate. -/
def groqGenerate (raw : String) (numSubtasks : Nat) :
    Except GroqErr (JVal × List JVal) :=
  match jsonParse (stripFences raw) with
  | none => .error .invalidJSON
  | some parsed => groqProcessParsed parsed numSubtasks

/- ─────────────────── Project statuses (fetchProjectStatuses) ─────────────────── -/

/-- A status object returned by the tracker (name plus a payload field
that distinguishes status objects sharing a name). -/
structure JStatus where
  name : String
  id : String
deriving DecidableEq, Inhabited

/-- One element of the `project/{key}/statuses` response: an issue type
carrying its status list. -/
structure JTypeStatuses where
  statuses : List JStatus
deriving DecidableEq, Inhabited

/-- JavaScript `Map.prototype.set`: update the value in place when the
key is present (keeping the entry's position), otherwise append a new
entry. -/
def mapSet (m : List (String × JStatus)) (k : String) (v : JStatus) :
    List (String × JStatus) :=
  if m.any (fun p => p.1 == k) then
    m.map (fun p => if p.1 == k then (k, v) else p)
  else m ++ [(k, v)]

/-- Model of `fetchProjectStatuses`: fold every status of every issue type into
an insertion-ordered map keyed by status name, then return the map's
values. -/
def fetchProjectStatuses (data : List JTypeStatuses) : List JStatus :=
  (data.foldl (fun m t => t.statuses.foldl (fun m2 s => mapSet m2 s.name s) m) []).map Prod.snd

/-- All statuses of the response in encounter order. -/
def allStatuses : List JTypeStatuses → List JStatus
  | [] => []
  | t :: ts => t.statuses ++ allStatuses ts

/-- Deduplicate a list keeping the first occurrence of each element. -/
def firstDedupNames : List String → List String
  | [] => []
  | n :: rest => n :: firstDedupNames (rest.filter (fun m => m ≠ n))
termination_by l => l.length
decreasing_by
  simp only [List.length_cons]
  exact Nat.lt_succ_of_le (List.length_filter_le _ _)

/- ────────────────────────── ADF documents ────────────────────────── -/

/-- A node of the tracker's rich-text document format: a type tag, the
text payload (empty when absent), and child content. -/
inductive Adf where
  | mk (type : String) (text : String) (content : List Adf)

/-- Model of `buildAdf`: serialize a description and acceptance-criteria list
into the document tree (paragraph; heading "Acceptance Criteria";
bullet list of list items). -/
def buildAdf (description : String) (acceptanceCriteria : List String) : Adf :=
  let descPart :=
    if description ≠ "" then
      [Adf.mk "paragraph" "" [Adf.mk "text" description []]]
    else []
  let acPart :=
    if acceptanceCriteria.length > 0 then
      [Adf.mk "heading" "" [Adf.mk "text" "Acceptance Criteria" []],
       Adf.mk "bulletList" ""
         (acceptanceCriteria.map (fun ac =>
           Adf.mk "listItem" "" [Adf.mk "paragraph" "" [Adf.mk "text" ac []]]))]
    else []
  Adf.mk "doc" "" (descPart ++ acPart)

mutual

/-- The DFS text-collection walk of `extractAdfText`: push the text of
every `text` node in preorder. -/
def collectTexts : Adf → List String
  | .mk ty tx cs => (if ty = "text" then [tx] else []) ++ collectTextsList cs

/-- Walk a list of ADF nodes in order. -/
def collectTextsList : List Adf → List String
  | [] => []
  | a :: as => collectTexts a ++ collectTextsList as

end

/-- Model of `extractAdfText`: collect all text nodes, join with spaces, trim. -/
def extractAdfText (adf : Adf) : String :=
  jsTrimStr (joinSp (collectTexts adf))

/-- Boolean check that the fragments occur contiguously, disjointly and
in order inside the character list. -/
def cioB : List (List Char) → List Char → Bool
  | [], _ => true
  | f :: rest, s =>
    (List.range (s.length + 1)).any
      (fun i => ((s.drop i).take f.length == f) && cioB rest (s.drop (i + f.length)))

/-- The fragments occur contiguously, disjointly and in order inside
the string. -/
def ContainsInOrder : List (List Char) → List Char → Prop
  | [], _ => True
  | f :: rest, s => ∃ pre post, s = pre ++ f ++ post ∧ ContainsInOrder rest post

/- ────────────────────────── jiraTransition ────────────────────────── -/

/-- A transition offered by the tracker for an issue. -/
structure JTransition where
  id : String
  name : String
deriving DecidableEq, Inhabited

/-- Environment for one `jiraTransition` run: the outcome of the GET on
the issue's transitions, and the outcome of the POST executing a given
transition id. -/
structure TransEnv where
  fetch : Except String (List JTransition)
  post : String → Except String Unit

/-- Calls issued by `jiraTransition`. -/
inductive TransCall where
  | fetchTransitions
  | postTransition (id : String)
deriving DecidableEq

/-- Model of `jiraTransition`: fetch available transitions, match the target
status name case-insensitively, return silently when nothing matches,
execute the first match by its id otherwise. -/
def jiraTransition (env : TransEnv) (targetStatus : String) :
    Except String Unit × List TransCall :=
  match env.fetch with
  | .error e => (.error e, [TransCall.fetchTransitions])
  | .ok l =>
    match l.find? (fun t => jsToLower t.name = jsToLower targetStatus) with
    | none => (.ok (), [TransCall.fetchTransitions])
    | some t => (env.post t.id, [TransCall.fetchTransitions, TransCall.postTransition t.id])

/- ──────────────────── detectSubtaskTypeName ──────────────────── -/

/-- An issue type from the creation-metadata endpoint. -/
structure JIssueType where
  name : String
  subtask : Bool
deriving DecidableEq, Inhabited

/-- A project entry of the creation-metadata response. -/
structure JProjectMeta where
  key : String
  issuetypes : List JIssueType
deriving DecidableEq, Inhabited

/-- Environment for one `detectSubtaskTypeName` run: the outcome of the
createmeta GET, and for each probed candidate name either the
serialized (`JSON.stringify`) response body of the probe creation call,
or `none` when the probe fetch itself threw. -/
structure DetectEnv where
  createmeta : Except String (List JProjectMeta)
  probe : String → Option String

/-- The fixed ordered candidate list probed by the fallback cascade. -/
def subtaskCandidates : List String := ["Subtask", "Sub-task", "subtask", "sub-task"]

/-- A candidate validates when its probe produced a body whose
lowercased serialization mentions neither "issuetype" nor
"issue type"; a probe that threw never validates. -/
def probeValid (env : DetectEnv) (c : String) : Bool :=
  match env.probe c with
  | none => false
  | some body =>
    !(strContains (jsToLower body) "issuetype") && !(strContains (jsToLower body) "issue type")

/-- The probe loop over candidate names: return the first validating
candidate (with the list of candidates probed so far), else the
literal fallback. -/
def probeLoop (env : DetectEnv) : List String → String × List String
  | [] => ("Subtask", [])
  | c :: rest =>
    match env.probe c with
    | none =>
      let r := probeLoop env rest
      (r.1, c :: r.2)
    | some body =>
      if !(strContains (jsToLower body) "issuetype") && !(strContains (jsToLower body) "issue type") then
        (c, [c])
      else
        let r := probeLoop env rest
        (r.1, c :: r.2)

/-- The createmeta step of the cascade: find the requested project and
the first issue type flagged as a subtask. -/
def metaSubtaskName (env : DetectEnv) (projectKey : String) : Option String :=
  match env.createmeta with
  | .error _ => none
  | .ok projects =>
    match projects.find? (fun p => p.key = projectKey) with
    | none => none
    | some proj => (proj.issuetypes.find? (fun t => t.subtask)).map (·.name)

/-- Result of one `detectSubtaskTypeName` run: the returned name, the
cache content afterwards, the candidates actually probed, and whether
the createmeta endpoint was consulted. -/
structure DetectResult where
  name : String
  cacheAfter : String
  probes : List String
  metaCalled : Bool
deriving DecidableEq

/-- Model of `detectSubtaskTypeName`: cached value if (truthy) present; else
createmeta discovery; else the probe cascade; else the literal
"Subtask".  The cache is modelled as a string, empty meaning absent. -/
def detectSubtaskTypeName (env : DetectEnv) (projectKey : String) (cache : String) :
    DetectResult :=
  if cache ≠ "" then ⟨cache, cache, [], false⟩
  else
    match metaSubtaskName env projectKey with
    | some n => ⟨n, n, [], true⟩
    | none =>
      let r := probeLoop env subtaskCandidates
      ⟨r.1, r.1, r.2, true⟩

/- ─────────────────────── onConfirm orchestrator ─────────────────────── -/

/-- A generated subtask. -/
structure Subtask where
  title : String
  description : String
  acceptance_criteria : List String

/-- The generation result consumed by `onConfirm`. -/
structure AiOutput where
  title : String
  description : String
  acceptance_criteria : List String
  subtasks : List Subtask

/-- The `_meta` bag attached to the generation result (defaults already
applied, as in the `meta.x || default` reads of `onConfirm`, except for
`storyPoints` whose zero-coalescing is modelled explicitly). -/
structure Meta where
  mode : String
  parentKey : String
  projectKey : String
  issueType : String
  breakType : String
  jiraStatus : String
  priority : String
  assigneeId : String
  dueDate : String
  labels : List String
  storyPoints : Option ℚ
  watchers : List String

/-- The extra-fields object built by `onConfirm` (a field is `none`
when the corresponding key is not included). -/
structure ExtraFields where
  priority : Option String
  assignee : Option String
  duedate : Option String
  labels : Option (List String)
deriving DecidableEq

/-- JavaScript `meta.storyPoints || null`: a story-point value of 0 is
falsy and coalesces to null. -/
def jsOrNull (sp : Option ℚ) : Option ℚ :=
  match sp with
  | some x => if x = 0 then none else some x
  | none => none

/-- The synthesized story-point label `sp:<value>`. -/
def spLabel (q : ℚ) : String := "sp:" ++ toString q

/-- The final label list: the configured labels plus, when a
story-point value survives the null-coalescing, the synthesized label. -/
def finalLabelsOf (labels : List String) (storyPoints : Option ℚ) : List String :=
  match storyPoints with
  | some q => labels ++ [spLabel q]
  | none => labels

/-- Build the extra-fields object exactly as `onConfirm` does: include
only non-empty values, and the labels key only when the final label
list is nonempty. -/
def extraFieldsOf (meta : Meta) : ExtraFields :=
  let storyPoints := jsOrNull meta.storyPoints
  let finalLabels := finalLabelsOf meta.labels storyPoints
  { priority := if meta.priority ≠ "" then some meta.priority else none
    assignee := if meta.assigneeId ≠ "" then some meta.assigneeId else none
    duedate := if meta.dueDate ≠ "" then some meta.dueDate else none
    labels := if finalLabels.length > 0 then some finalLabels else none }

/-- Model of `Object.keys` of the extra-fields object. -/
def ExtraFields.keys (e : ExtraFields) : List String :=
  (if e.priority.isSome then ["priority"] else []) ++
  (if e.assignee.isSome then ["assignee"] else []) ++
  (if e.duedate.isSome then ["duedate"] else []) ++
  (if e.labels.isSome then ["labels"] else [])

/-- Environment for one `onConfirm` run: the outcome of the parent
creation POST, of each subtask's essential creation POST (by loop
index), and of each subtask's optional-field update PUT. -/
structure ConfirmEnv where
  parentCreate : Except String String
  subtaskCreate : Nat → Except String String
  extraUpdate : Nat → Except String Unit

/-- The calls issued by an `onConfirm` run, in order. -/
inductive JiraCall where
  | parentCreate
  | parentTransition
  | subDetect (i : Nat)
  | subCreate (i : Nat)
  | subUpdate (i : Nat)
  | subTransition (i : Nat)
  | subWatcher (i : Nat) (w : String)
deriving DecidableEq

/-- The subtask loop index a call belongs to, if any. -/
def callIdx : JiraCall → Option Nat
  | .parentCreate => none
  | .parentTransition => none
  | .subDetect i => some i
  | .subCreate i => some i
  | .subUpdate i => some i
  | .subTransition i => some i
  | .subWatcher i _ => some i

/-- Whether a call is a subtask essential-creation call. -/
def isSubCreate : JiraCall → Bool
  | .subCreate _ => true
  | _ => false

/-- Model of `jiraCreateSubtask` for the subtask at loop index `i`: resolve the
type name (a detection call when no explicit break type is set), create
with essential fields only, then attempt the optional-field update
whose failure is caught and logged.  Returns the creation outcome and
the calls issued. -/
def jiraCreateSubtask (env : ConfirmEnv) (i : Nat) (breakType : String)
    (extra : ExtraFields) : Except String String × List JiraCall :=
  let detectTrace := if breakType ≠ "" then [] else [JiraCall.subDetect i]
  match env.subtaskCreate i with
  | .error e => (.error e, detectTrace ++ [JiraCall.subCreate i])
  | .ok key =>
    let updTrace :=
      if (extra.keys).length > 0 then
        match env.extraUpdate i with
        | .ok _ => [JiraCall.subUpdate i]
        | .error _ => [JiraCall.subUpdate i]
      else []
    (.ok key, detectTrace ++ [JiraCall.subCreate i] ++ updTrace)

/-- Outcome of the subtask loop: the keys appended to `createdKeys`,
the calls issued, and the error that aborted the loop, if any. -/
structure LoopOut where
  keys : List String
  trace : List JiraCall
  error : Option String

/-- The per-subtask loop of `onConfirm`, strictly sequential: create
the subtask (aborting the remaining iterations on failure), append its
key immediately, then best-effort transition and watcher additions. -/
def subtaskLoop (env : ConfirmEnv) (meta : Meta) (extra : ExtraFields) :
    List Subtask → Nat → LoopOut
  | [], _ => ⟨[], [], none⟩
  | _st :: rest, i =>
    match jiraCreateSubtask env i meta.breakType extra with
    | (.error e, tr) => ⟨[], tr, some e⟩
    | (.ok key, tr) =>
      let tr2 := tr ++
        (if meta.jiraStatus ≠ "" ∧ key ≠ "" then [JiraCall.subTransition i] else []) ++
        meta.watchers.map (JiraCall.subWatcher i)
      let r := subtaskLoop env meta extra rest (i + 1)
      ⟨key :: r.keys, tr2 ++ r.trace, r.error⟩

/-- Outcome of an `onConfirm` run: the accumulated `createdKeys`, the
call trace, the propagated error (the run failed) if any, and the
parent key in effect. -/
structure ConfirmResult where
  createdKeys : List String
  trace : List JiraCall
  error : Option String
  parentKey : String

/-- The `onConfirm` orchestrator: in create mode, create the parent
first (aborting on failure) and append its key; optionally transition
the parent (best-effort); then run the subtask loop. -/
def onConfirm (env : ConfirmEnv) (out : AiOutput) (meta : Meta) : ConfirmResult :=
  let extra := extraFieldsOf meta
  if meta.mode = "create" then
    match env.parentCreate with
    | .error e => ⟨[], [JiraCall.parentCreate], some e, meta.parentKey⟩
    | .ok pk =>
      let tr0 := [JiraCall.parentCreate] ++
        (if meta.jiraStatus ≠ "" ∧ pk ≠ "" then [JiraCall.parentTransition] else [])
      let r := subtaskLoop env meta extra out.subtasks 0
      ⟨pk :: r.keys, tr0 ++ r.trace, r.error, pk⟩
  else
    let tr0 :=
      if meta.jiraStatus ≠ "" ∧ meta.parentKey ≠ "" then [JiraCall.parentTransition] else []
    let r := subtaskLoop env meta extra out.subtasks 0
    ⟨r.keys, tr0 ++ r.trace, r.error, meta.parentKey⟩

/- ───────────────────────── Concrete fixtures ───────────────────────── -/

/-- A run environment whose second subtask creation fails. -/
def envA : ConfirmEnv :=
  ⟨.ok "NEW-1", fun j => if j = 0 then .ok "NEW-2" else .error "boom", fun _ => .error "updfail"⟩

/-- A run environment where every subtask creation succeeds but every
optional-field update fails. -/
def envB : ConfirmEnv :=
  ⟨.ok "NEW-1", fun j => .ok ("K-" ++ toString j), fun _ => .error "updfail"⟩

/-- A run environment whose parent creation fails. -/
def envErr : ConfirmEnv :=
  ⟨.error "denied", fun _ => .ok "K", fun _ => .ok ()⟩

/-- A create-mode metadata bag with no optional fields. -/
def metaCreate : Meta :=
  ⟨"create", "", "KAN", "Story", "", "", "", "", "", [], none, []⟩

/-- A breakdown-mode metadata bag with one label and a story-point
value of zero. -/
def metaBreak : Meta :=
  ⟨"breakdown", "KAN-2", "KAN", "", "", "Done", "", "", "", ["x"], some 0, []⟩

/-- A breakdown-mode metadata bag with a nonzero story-point value. -/
def metaSp : Meta :=
  ⟨"breakdown", "KAN-2", "KAN", "", "", "", "", "", "", ["lbl"], some 3, []⟩

/-- A generation result with three subtasks. -/
def outThree : AiOutput :=
  ⟨"t", "d", [], [⟨"s1", "", []⟩, ⟨"s2", "", []⟩, ⟨"s3", "", []⟩]⟩

/-- A concrete subtasks array. -/
def cSubs : List JVal := [.str "a", .str "b", .str "c"]

/-- A concrete parsed generation response with three subtasks. -/
def cParsed : JVal := .obj [("subtasks", .arr cSubs)]

/-- A transition environment offering two transitions. -/
def tEnv1 : TransEnv :=
  ⟨.ok [⟨"31", "DONE"⟩, ⟨"41", "Other"⟩], fun _ => .ok ()⟩

/-- A detection environment whose createmeta discovery succeeds with a
subtask-flagged type. -/
def dEnv1 : DetectEnv :=
  ⟨.ok [⟨"KAN", [⟨"Story", false⟩, ⟨"Sub-task", true⟩]⟩], fun _ => none⟩

/-- A statuses response where two issue types report different status
objects with the same name. -/
def sData : List JTypeStatuses :=
  [⟨[⟨"Done", "1"⟩]⟩, ⟨[⟨"Done", "2"⟩, ⟨"Open", "3"⟩]⟩]

/- ═══════════════════════════════ Theorems ═══════════════════════════════ -/

theorem probeLoop_name_eq (env : DetectEnv) (l : List String) :
    (probeLoop env l).1 = (l.find? (probeValid env)).getD "Subtask" := by
  induction l with
  | nil => rfl
  | cons c rest ih =>
    rw [List.find?_cons]
    cases h : env.probe c with
    | none =>
      have hv : probeValid env c = false := by unfold probeValid; rw [h]
      simp [probeLoop, h, hv, ih]
    | some body =>
      by_cases hb :
          (!(strContains (jsToLower body) "issuetype") && !(strContains (jsToLower body) "issue type")) = true
      · have hv : probeValid env c = true := by unfold probeValid; rw [h]; exact hb
        simp [probeLoop, h, hb, hv]
      · rw [Bool.not_eq_true] at hb
        have hv : probeValid env c = false := by unfold probeValid; rw [h]; exact hb
        simp [probeLoop, h, hb, hv, ih]

/-- C2: resolveSubtaskTypeName follows the cascade: cached value if
present; else the first subtask-flagged type from creation-metadata
discovery (no probe issued); else the first candidate of
["Subtask", "Sub-task", "subtask", "sub-task"] whose probe body does
not mention "issuetype"/"issue type", defaulting to the literal
"Subtask"; the result is cached in every uncached case. -/
theorem detect_subtask_type_cascade (env : DetectEnv) (pk : String) (cache : String) :
    (cache ≠ "" → detectSubtaskTypeName env pk cache = ⟨cache, cache, [], false⟩) ∧
    (cache = "" → ∀ n, metaSubtaskName env pk = some n →
      detectSubtaskTypeName env pk cache = ⟨n, n, [], true⟩) ∧
    (cache = "" → metaSubtaskName env pk = none →
      (detectSubtaskTypeName env pk cache).name =
        ((subtaskCandidates.find? (probeValid env)).getD "Subtask") ∧
      (detectSubtaskTypeName env pk cache).cacheAfter =
        (detectSubtaskTypeName env pk cache).name ∧
      (detectSubtaskTypeName env pk cache).metaCalled = true) ∧
    (∀ ps proj t, env.createmeta = .ok ps → ps.find? (fun p => p.key = pk) = some proj →
      proj.issuetypes.find? (fun ty => ty.subtask) = some t →
      metaSubtaskName env pk = some t.name) := by
  refine ⟨fun h => ?_, fun h n hn => ?_, fun h hn => ?_, fun ps proj t h1 h2 h3 => ?_⟩
  · simp [detectSubtaskTypeName, h]
  · simp [detectSubtaskTypeName, h, hn]
  · simp [detectSubtaskTypeName, h, hn, probeLoop_name_eq]
  · simp [metaSubtaskName, h1, h2, h3]

/-- Witness for the cascade theorem: a cached value is returned as-is,
and a subtask-flagged type from discovery is returned without probing. -/
theorem detect_subtask_type_cascade_witness :
    detectSubtaskTypeName dEnv1 "KAN" "Cached" = ⟨"Cached", "Cached", [], false⟩ ∧
    detectSubtaskTypeName dEnv1 "KAN" "" = ⟨"Sub-task", "Sub-task", [], true⟩ :=
  ⟨(detect_subtask_type_cascade dEnv1 "KAN" "Cached").1 (by decide),
   (detect_subtask_type_cascade dEnv1 "KAN" "").2.1 rfl "Sub-task" rfl⟩

/-- C5: when the parsed response's subtasks array is longer than the
requested count, the first requested-count subtasks are returned in
order; when it is at most the requested count it is returned
unmodified. -/
theorem groq_truncation (parsed : JVal) (l : List JVal) (n : Nat)
    (h : subtasksArrOf parsed = some l) :
    (l.length > n → groqProcessParsed parsed n = .ok (parsed, l.take n)) ∧
    (l.length ≤ n → groqProcessParsed parsed n = .ok (parsed, l)) := by
  unfold subtasksArrOf at h
  unfold groqProcessParsed
  constructor
  · intro hlen
    split at h
    next heq => cases h; rw [heq]; simp [hlen]
    next => exact absurd h (by simp)
  · intro hlen
    split at h
    next heq => cases h; rw [heq]; simp [Nat.not_lt_of_le hlen]
    next => exact absurd h (by simp)

/-- Witness for the truncation theorem at a concrete parsed response
with three subtasks. -/
theorem groq_truncation_witness :
    groqProcessParsed cParsed 2 = .ok (cParsed, cSubs.take 2) ∧
    groqProcessParsed cParsed 5 = .ok (cParsed, cSubs) :=
  ⟨(groq_truncation cParsed cSubs 2 rfl).1 (by decide),
   (groq_truncation cParsed cSubs 5 rfl).2 (by decide)⟩

/-- C9: the transition operation fetches the available transitions and
matches the target name case-insensitively; with no match it makes no
further call and returns successfully; with a match it executes the
matched transition by its identifier. -/
theorem transition_case_insensitive (env : TransEnv) (ts : String) (l : List JTransition)
    (h : env.fetch = .ok l) :
    (l.find? (fun t => jsToLower t.name = jsToLower ts) = none →
      jiraTransition env ts = (.ok (), [TransCall.fetchTransitions])) ∧
    (∀ t, l.find? (fun t => jsToLower t.name = jsToLower ts) = some t →
      jiraTransition env ts =
        (env.post t.id, [TransCall.fetchTransitions, TransCall.postTransition t.id])) := by
  constructor
  · intro hf; simp [jiraTransition, h, hf]
  · intro t hf; simp [jiraTransition, h, hf]

/-- Witness for the transition theorem: a case-insensitive match
executes by id, a missing status is a silent no-op. -/
theorem transition_case_insensitive_witness :
    jiraTransition tEnv1 "missing" = (.ok (), [TransCall.fetchTransitions]) ∧
    jiraTransition tEnv1 "done" =
      (tEnv1.post "31", [TransCall.fetchTransitions, TransCall.postTransition "31"]) :=
  ⟨(transition_case_insensitive tEnv1 "missing" _ rfl).1 (by decide),
   (transition_case_insensitive tEnv1 "done" _ rfl).2 ⟨"31", "DONE"⟩ (by decide)⟩

/-- C10: a configured story-point value of 0 is coalesced to null by
`meta.storyPoints || null`, so no sp:0 label is synthesized and the
labels included in the optional-field update are exactly the configured
label set; an sp:<value> label is appended exactly for surviving
(nonzero) story-point values. -/
theorem story_points_zero_label (meta : Meta) :
    (meta.storyPoints = some 0 →
      jsOrNull meta.storyPoints = none ∧
      finalLabelsOf meta.labels (jsOrNull meta.storyPoints) = meta.labels ∧
      (extraFieldsOf meta).labels =
        (if meta.labels.length > 0 then some meta.labels else none)) ∧
    (meta.storyPoints = none →
      finalLabelsOf meta.labels (jsOrNull meta.storyPoints) = meta.labels) ∧
    (∀ q : ℚ, meta.storyPoints = some q → q ≠ 0 →
      finalLabelsOf meta.labels (jsOrNull meta.storyPoints) = meta.labels ++ [spLabel q]) := by
  refine ⟨fun h => ?_, fun h => ?_, fun q h hq => ?_⟩
  · refine ⟨by simp [jsOrNull, h], by simp [jsOrNull, h, finalLabelsOf], ?_⟩
    simp [extraFieldsOf, jsOrNull, h, finalLabelsOf]
  · simp [jsOrNull, h, finalLabelsOf]
  · simp [jsOrNull, h, hq, finalLabelsOf]

/-- Witness for the story-point labelling theorem: with a configured
value of 0 the extra-fields labels are exactly the configured set; with
a nonzero value the sp label is appended. -/
theorem story_points_zero_label_witness :
    (extraFieldsOf metaBreak).labels =
      (if metaBreak.labels.length > 0 then some metaBreak.labels else none) ∧
    finalLabelsOf metaSp.labels (jsOrNull metaSp.storyPoints) = metaSp.labels ++ [spLabel 3] :=
  ⟨((story_points_zero_label metaBreak).1 rfl).2.2,
   (story_points_zero_label metaSp).2.2 3 rfl (by norm_num)⟩

theorem subtaskLoop_all_ok (env : ConfirmEnv) (meta : Meta) (extra : ExtraFields)
    (κ : Nat → String) :
    ∀ (sts : List Subtask) (s : Nat),
    (∀ j, j < sts.length → env.subtaskCreate (s + j) = .ok (κ (s + j))) →
    (subtaskLoop env meta extra sts s).keys = (List.range' s sts.length).map κ ∧
    (subtaskLoop env meta extra sts s).error = none := by
  intro sts
  induction sts with
  | nil => intro s _; exact ⟨rfl, rfl⟩
  | cons st rest ih =>
    intro s h
    have h0 : env.subtaskCreate s = .ok (κ s) := by
      have h1 := h 0 (by simp)
      simpa using h1
    have hshift : ∀ j, j < rest.length → env.subtaskCreate (s + 1 + j) = .ok (κ (s + 1 + j)) := by
      intro j hj
      have heq : s + 1 + j = s + (j + 1) := by omega
      rw [heq]
      exact h (j + 1) (by simpa using Nat.succ_lt_succ hj)
    have hr := ih (s + 1) hshift
    refine ⟨?_, ?_⟩
    · simp only [subtaskLoop, jiraCreateSubtask, h0]
      simp [hr.1, List.range'_succ]
    · simp only [subtaskLoop, jiraCreateSubtask, h0]
      simp [hr.2]

theorem jiraCreateSubtask_trace_idx (env : ConfirmEnv) (i : Nat) (bt : String)
    (extra : ExtraFields) :
    ∀ c ∈ (jiraCreateSubtask env i bt extra).2, callIdx c = some i := by
  intro c hc
  unfold jiraCreateSubtask at hc
  cases henv : env.subtaskCreate i with
  | error e =>
    rw [henv] at hc
    simp only [List.mem_append] at hc
    rcases hc with hc | hc
    · split at hc
      · simp at hc
      · simp at hc; subst hc; rfl
    · simp at hc; subst hc; rfl
  | ok key =>
    rw [henv] at hc
    simp only [List.mem_append] at hc
    rcases hc with (hc | hc) | hc
    · split at hc
      · simp at hc
      · simp at hc; subst hc; rfl
    · simp at hc; subst hc; rfl
    · split at hc
      · split at hc <;> (simp at hc; subst hc; rfl)
      · simp at hc

theorem subtaskLoop_trace_idx_ge (env : ConfirmEnv) (meta : Meta) (extra : ExtraFields) :
    ∀ (sts : List Subtask) (s : Nat),
    ∀ c ∈ (subtaskLoop env meta extra sts s).trace, ∃ i, callIdx c = some i ∧ s ≤ i := by
  intro sts
  induction sts with
  | nil => intro s c hc; simp [subtaskLoop] at hc
  | cons st rest ih =>
    intro s c hc
    unfold subtaskLoop at hc
    cases hcr : jiraCreateSubtask env s meta.breakType extra with
    | mk res tr =>
      rw [hcr] at hc
      cases res with
      | error e =>
        simp only at hc
        have : callIdx c = some s := by
          have h2 := jiraCreateSubtask_trace_idx env s meta.breakType extra c
          rw [hcr] at h2
          exact h2 hc
        exact ⟨s, this, Nat.le_refl s⟩
      | ok key =>
        simp only [List.mem_append] at hc
        rcases hc with ((hc | hc) | hc) | hc
        · have h2 := jiraCreateSubtask_trace_idx env s meta.breakType extra c
          rw [hcr] at h2
          exact ⟨s, h2 hc, Nat.le_refl s⟩
        · split at hc
          · simp at hc; subst hc; exact ⟨s, rfl, Nat.le_refl s⟩
          · simp at hc
        · simp only [List.mem_map] at hc
          obtain ⟨w, _, hw⟩ := hc
          subst hw
          exact ⟨s, rfl, Nat.le_refl s⟩
        · obtain ⟨i, hi, hsi⟩ := ih (s + 1) c hc
          exact ⟨i, hi, by omega⟩

theorem subtaskLoop_fail (env : ConfirmEnv) (meta : Meta) (extra : ExtraFields)
    (κ : Nat → String) (e : String) :
    ∀ (d : Nat) (sts : List Subtask) (s : Nat),
    d < sts.length →
    (∀ j, j < d → env.subtaskCreate (s + j) = .ok (κ (s + j))) →
    env.subtaskCreate (s + d) = .error e →
    (subtaskLoop env meta extra sts s).keys = (List.range' s d).map κ ∧
    (subtaskLoop env meta extra sts s).error = some e ∧
    (∀ c ∈ (subtaskLoop env meta extra sts s).trace, ∀ j, callIdx c = some j → j ≤ s + d) := by
  intro d
  induction d with
  | zero =>
    intro sts s hd _ herr
    rw [Nat.add_zero] at herr
    cases sts with
    | nil => simp at hd
    | cons st rest =>
      refine ⟨?_, ?_, ?_⟩
      · simp [subtaskLoop, jiraCreateSubtask, herr]
      · simp [subtaskLoop, jiraCreateSubtask, herr]
      · intro c hc j hj
        have h2 := jiraCreateSubtask_trace_idx env s meta.breakType extra c
        unfold subtaskLoop at hc
        cases hcr : jiraCreateSubtask env s meta.breakType extra with
        | mk res tr =>
          rw [hcr] at hc h2
          cases res with
          | error e2 =>
            simp only at hc
            have := h2 hc
            rw [hj] at this
            cases this
            omega
          | ok key =>
            unfold jiraCreateSubtask at hcr
            rw [herr] at hcr
            simp at hcr
  | succ d ih =>
    intro sts s hd hok herr
    cases sts with
    | nil => simp at hd
    | cons st rest =>
      have h0 : env.subtaskCreate s = .ok (κ s) := by
        have h1 := hok 0 (by omega)
        simpa using h1
      have hok2 : ∀ j, j < d → env.subtaskCreate (s + 1 + j) = .ok (κ (s + 1 + j)) := by
        intro j hj
        have heq : s + 1 + j = s + (j + 1) := by omega
        rw [heq]
        exact hok (j + 1) (by omega)
      have herr2 : env.subtaskCreate (s + 1 + d) = .error e := by
        have heq : s + 1 + d = s + (d + 1) := by omega
        rw [heq]; exact herr
      have hr := ih rest (s + 1) (by simpa using hd) hok2 herr2
      refine ⟨?_, ?_, ?_⟩
      · simp only [subtaskLoop, jiraCreateSubtask, h0]
        simp [hr.1, List.range'_succ]
      · simp only [subtaskLoop, jiraCreateSubtask, h0]
        simp [hr.2.1]
      · intro c hc j hj
        unfold subtaskLoop at hc
        cases hcr : jiraCreateSubtask env s meta.breakType extra with
        | mk res tr =>
          rw [hcr] at hc
          cases res with
          | error e2 =>
            unfold jiraCreateSubtask at hcr
            rw [h0] at hcr
            simp at hcr
          | ok key =>
            simp only [List.mem_append] at hc
            rcases hc with ((hc | hc) | hc) | hc
            · have h2 := jiraCreateSubtask_trace_idx env s meta.breakType extra c
              rw [hcr] at h2
              have := h2 hc
              rw [hj] at this
              cases this
              omega
            · split at hc
              · simp at hc
                subst hc
                cases hj
                omega
              · simp at hc
            · simp only [List.mem_map] at hc
              obtain ⟨w, _, hw⟩ := hc
              subst hw
              cases hj
              omega
            · have := hr.2.2 c hc j hj
              omega

theorem subtaskLoop_filter_create (env : ConfirmEnv) (meta : Meta) (extra : ExtraFields) :
    ∀ (sts : List Subtask) (s : Nat),
    ∃ m, m ≤ sts.length ∧
      (subtaskLoop env meta extra sts s).trace.filter isSubCreate =
        (List.range' s m).map JiraCall.subCreate := by
  intro sts
  induction sts with
  | nil => intro s; exact ⟨0, by simp, by simp [subtaskLoop]⟩
  | cons st rest ih =>
    intro s
    cases henv : env.subtaskCreate s with
    | error e =>
      refine ⟨1, by simp, ?_⟩
      simp only [subtaskLoop, jiraCreateSubtask, henv]
      split
      · simp [isSubCreate, List.range'_succ]
      · simp [isSubCreate, List.range'_succ]
    | ok key =>
      obtain ⟨m, hm, hf⟩ := ih (s + 1)
      refine ⟨m + 1, by simpa using Nat.succ_le_succ hm, ?_⟩
      simp only [subtaskLoop, jiraCreateSubtask, henv]
      rw [List.range'_succ]
      simp only [List.filter_append, List.map_cons]
      rw [hf]
      have hws : List.filter isSubCreate (List.map (JiraCall.subWatcher s) meta.watchers) = [] := by
        rw [List.filter_eq_nil_iff]
        intro c hc
        simp only [List.mem_map] at hc
        obtain ⟨w, _, hw⟩ := hc
        subst hw
        simp [isSubCreate]
      repeat' split
      all_goals simp [isSubCreate, hws]

/-- C3: in create mode, if the parent creation call fails, createdKeys
is empty and no subtask creation call is attempted (the trace consists
of the single failed parent-creation call). -/
theorem parent_create_failure_aborts (env : ConfirmEnv) (out : AiOutput) (meta : Meta)
    (e : String) (hm : meta.mode = "create") (hp : env.parentCreate = .error e) :
    (onConfirm env out meta).createdKeys = [] ∧
    (onConfirm env out meta).trace = [JiraCall.parentCreate] ∧
    (onConfirm env out meta).error = some e ∧
    ∀ i, JiraCall.subCreate i ∉ (onConfirm env out meta).trace := by
  have hone : onConfirm env out meta = ⟨[], [JiraCall.parentCreate], some e, meta.parentKey⟩ := by
    simp [onConfirm, hm, hp]
  rw [hone]
  refine ⟨rfl, rfl, rfl, ?_⟩
  intro i hmem
  simp at hmem

/-- Witness for the parent-failure theorem at a concrete failing
environment. -/
theorem parent_create_failure_aborts_witness :
    (onConfirm envErr outThree metaCreate).createdKeys = [] ∧
    (onConfirm envErr outThree metaCreate).trace = [JiraCall.parentCreate] ∧
    (onConfirm envErr outThree metaCreate).error = some "denied" :=
  ⟨(parent_create_failure_aborts envErr outThree metaCreate "denied" rfl rfl).1,
   (parent_create_failure_aborts envErr outThree metaCreate "denied" rfl rfl).2.1,
   (parent_create_failure_aborts envErr outThree metaCreate "denied" rfl rfl).2.2.1⟩

/-- C1: if subtask i's essential creation fails (all earlier ones
succeeding), the run fails with that error, createdKeys contains in
order the parent key (create mode only) and the keys of subtasks
0..i-1, and no call with a loop index beyond i is made; if every
essential creation succeeds, the run does not fail and createdKeys
contains the parent key (create mode only) and every subtask key, even
when every optional-field update fails. -/
theorem orchestrator_failure_isolation :
    ∀ (env : ConfirmEnv) (out : AiOutput) (meta : Meta) (pk : String) (κ : Nat → String),
    (meta.mode = "create" → env.parentCreate = .ok pk) →
    ((∀ i e, i < out.subtasks.length →
        (∀ j, j < i → env.subtaskCreate j = .ok (κ j)) →
        env.subtaskCreate i = .error e →
        (onConfirm env out meta).error = some e ∧
        (onConfirm env out meta).createdKeys =
          (if meta.mode = "create" then [pk] else []) ++ (List.range i).map κ ∧
        (∀ c ∈ (onConfirm env out meta).trace, ∀ j, callIdx c = some j → j ≤ i)) ∧
     ((∀ j, j < out.subtasks.length → env.subtaskCreate j = .ok (κ j)) →
        (onConfirm env out meta).error = none ∧
        (onConfirm env out meta).createdKeys =
          (if meta.mode = "create" then [pk] else []) ++
            (List.range out.subtasks.length).map κ)) := by
  intro env out meta pk κ hpk
  by_cases hm : meta.mode = "create"
  · have hp := hpk hm
    have hone : onConfirm env out meta =
        ⟨pk :: (subtaskLoop env meta (extraFieldsOf meta) out.subtasks 0).keys,
         JiraCall.parentCreate ::
           ((if meta.jiraStatus ≠ "" ∧ pk ≠ "" then [JiraCall.parentTransition] else []) ++
             (subtaskLoop env meta (extraFieldsOf meta) out.subtasks 0).trace),
         (subtaskLoop env meta (extraFieldsOf meta) out.subtasks 0).error, pk⟩ := by
      simp [onConfirm, hm, hp]
    constructor
    · intro i e hlen hok herr
      have hfail := subtaskLoop_fail env meta (extraFieldsOf meta) κ e i out.subtasks 0 hlen
        (by intro j hj; simpa using hok j hj) (by simpa using herr)
      rw [hone]
      refine ⟨hfail.2.1, ?_, ?_⟩
      · simp only [hm, if_pos]
        simp [hfail.1, List.range_eq_range']
      · intro c hc j hj
        simp only [List.mem_cons, List.mem_append] at hc
        rcases hc with hc | hc | hc
        · subst hc; simp [callIdx] at hj
        · split at hc
          · simp at hc; subst hc; simp [callIdx] at hj
          · simp at hc
        · have := hfail.2.2 c hc j hj
          omega
    · intro hok
      have hall := subtaskLoop_all_ok env meta (extraFieldsOf meta) κ out.subtasks 0
        (by intro j hj; simpa using hok j hj)
      rw [hone]
      refine ⟨hall.2, ?_⟩
      simp only [hm, if_pos]
      simp [hall.1, List.range_eq_range']
  · have hone : onConfirm env out meta =
        ⟨(subtaskLoop env meta (extraFieldsOf meta) out.subtasks 0).keys,
         (if meta.jiraStatus ≠ "" ∧ meta.parentKey ≠ "" then [JiraCall.parentTransition] else []) ++
           (subtaskLoop env meta (extraFieldsOf meta) out.subtasks 0).trace,
         (subtaskLoop env meta (extraFieldsOf meta) out.subtasks 0).error, meta.parentKey⟩ := by
      simp [onConfirm, hm]
    constructor
    · intro i e hlen hok herr
      have hfail := subtaskLoop_fail env meta (extraFieldsOf meta) κ e i out.subtasks 0 hlen
        (by intro j hj; simpa using hok j hj) (by simpa using herr)
      rw [hone]
      refine ⟨hfail.2.1, ?_, ?_⟩
      · simp only [hm, if_neg]
        simp [hfail.1, List.range_eq_range']
      · intro c hc j hj
        simp only [List.mem_append] at hc
        rcases hc with hc | hc
        · split at hc
          · simp at hc; subst hc; simp [callIdx] at hj
          · simp at hc
        · have := hfail.2.2 c hc j hj
          omega
    · intro hok
      have hall := subtaskLoop_all_ok env meta (extraFieldsOf meta) κ out.subtasks 0
        (by intro j hj; simpa using hok j hj)
      rw [hone]
      refine ⟨hall.2, ?_⟩
      simp only [hm, if_neg]
      simp [hall.1, List.range_eq_range']

/-- Witness for the failure-isolation theorem: a create-mode run whose
second subtask creation fails keeps the parent key and the first
subtask key; a breakdown-mode run whose updates all fail still keeps
every subtask key and does not fail. -/
theorem orchestrator_failure_isolation_witness :
    ((onConfirm envA outThree metaCreate).error = some "boom" ∧
     (onConfirm envA outThree metaCreate).createdKeys = ["NEW-1", "NEW-2"]) ∧
    ((onConfirm envB outThree metaBreak).error = none ∧
     (onConfirm envB outThree metaBreak).createdKeys = ["K-0", "K-1", "K-2"]) := by
  have hA := (orchestrator_failure_isolation envA outThree metaCreate "NEW-1"
    (fun _ => "NEW-2") (fun _ => rfl)).1 1 "boom" (by decide)
    (by intro j hj; have hj0 : j = 0 := by omega
        subst hj0; rfl)
    rfl
  have hB := (orchestrator_failure_isolation envB outThree metaBreak "unused"
    (fun j => "K-" ++ toString j) (by intro h; exact absurd h (by decide))).2
    (by intro j hj; rfl)
  exact ⟨⟨hA.1, hA.2.1.trans (by decide)⟩, ⟨hB.1, hB.2.trans (by decide)⟩⟩

/-- C4: the call sequence of a run places parent creation (create mode)
strictly first, before every subtask operation, and the subtask
essential-creation calls occur exactly in subtask order (indices
0, 1, 2, ... of the generation result). -/
theorem call_sequence_ordering (env : ConfirmEnv) (out : AiOutput) (meta : Meta) :
    (meta.mode = "create" →
      ∃ t, (onConfirm env out meta).trace = JiraCall.parentCreate :: t ∧
           JiraCall.parentCreate ∉ t) ∧
    (∃ m, m ≤ out.subtasks.length ∧
      (onConfirm env out meta).trace.filter isSubCreate =
        (List.range m).map JiraCall.subCreate) := by
  by_cases hm : meta.mode = "create"
  · cases hp : env.parentCreate with
    | error e =>
      have hone : onConfirm env out meta =
          ⟨[], [JiraCall.parentCreate], some e, meta.parentKey⟩ := by
        simp [onConfirm, hm, hp]
      rw [hone]
      constructor
      · intro _
        exact ⟨[], rfl, by simp⟩
      · exact ⟨0, Nat.zero_le _, by simp [isSubCreate]⟩
    | ok pk =>
      have hone : onConfirm env out meta =
          ⟨pk :: (subtaskLoop env meta (extraFieldsOf meta) out.subtasks 0).keys,
           JiraCall.parentCreate ::
             ((if meta.jiraStatus ≠ "" ∧ pk ≠ "" then [JiraCall.parentTransition] else []) ++
               (subtaskLoop env meta (extraFieldsOf meta) out.subtasks 0).trace),
           (subtaskLoop env meta (extraFieldsOf meta) out.subtasks 0).error, pk⟩ := by
        simp [onConfirm, hm, hp]
      rw [hone]
      obtain ⟨m, hmle, hf⟩ :=
        subtaskLoop_filter_create env meta (extraFieldsOf meta) out.subtasks 0
      constructor
      · intro _
        refine ⟨_, rfl, ?_⟩
        intro hmem
        simp only [List.mem_append] at hmem
        rcases hmem with hmem | hmem
        · split at hmem
          · simp at hmem
          · simp at hmem
        · obtain ⟨i, hi, _⟩ :=
            subtaskLoop_trace_idx_ge env meta (extraFieldsOf meta) out.subtasks 0 _ hmem
          simp [callIdx] at hi
      · refine ⟨m, hmle, ?_⟩
        simp only [List.filter_cons, List.filter_append]
        rw [hf]
        have h1 : isSubCreate JiraCall.parentCreate = false := rfl
        rw [h1]
        have h2 : List.filter isSubCreate
            (if meta.jiraStatus ≠ "" ∧ pk ≠ "" then [JiraCall.parentTransition] else []) = [] := by
          split <;> simp [isSubCreate]
        rw [h2]
        simp [List.range_eq_range']
  · have hone : onConfirm env out meta =
        ⟨(subtaskLoop env meta (extraFieldsOf meta) out.subtasks 0).keys,
         (if meta.jiraStatus ≠ "" ∧ meta.parentKey ≠ "" then [JiraCall.parentTransition] else []) ++
           (subtaskLoop env meta (extraFieldsOf meta) out.subtasks 0).trace,
         (subtaskLoop env meta (extraFieldsOf meta) out.subtasks 0).error, meta.parentKey⟩ := by
      simp [onConfirm, hm]
    rw [hone]
    obtain ⟨m, hmle, hf⟩ :=
      subtaskLoop_filter_create env meta (extraFieldsOf meta) out.subtasks 0
    constructor
    · intro h; exact absurd h hm
    · refine ⟨m, hmle, ?_⟩
      simp only [List.filter_append]
      rw [hf]
      have h2 : List.filter isSubCreate
          (if meta.jiraStatus ≠ "" ∧ meta.parentKey ≠ "" then [JiraCall.parentTransition] else []) = [] := by
        split <;> simp [isSubCreate]
      rw [h2]
      simp [List.range_eq_range']

/-- Witness for the ordering theorem at a concrete create-mode run. -/
theorem call_sequence_ordering_witness :
    (∃ t, (onConfirm envA outThree metaCreate).trace = JiraCall.parentCreate :: t ∧
          JiraCall.parentCreate ∉ t) ∧
    (∃ m, m ≤ outThree.subtasks.length ∧
      (onConfirm envA outThree metaCreate).trace.filter isSubCreate =
        (List.range m).map JiraCall.subCreate) :=
  ⟨(call_sequence_ordering envA outThree metaCreate).1 rfl,
   (call_sequence_ordering envA outThree metaCreate).2⟩

theorem mem_firstDedupNames (a : String) : ∀ l, a ∈ firstDedupNames l ↔ a ∈ l := by
  intro l
  induction l using firstDedupNames.induct with
  | case1 => simp [firstDedupNames]
  | case2 n rest ih =>
    rw [firstDedupNames]
    simp only [List.mem_cons, ih, List.mem_filter]
    constructor
    · rintro (rfl | ⟨h, _⟩)
      · exact .inl rfl
      · exact .inr h
    · rintro (rfl | h)
      · exact .inl rfl
      · by_cases hn : a = n
        · exact .inl hn
        · exact .inr ⟨h, by simpa using hn⟩

theorem firstDedupNames_concat (y : String) :
    ∀ xs, firstDedupNames (xs ++ [y]) =
      if y ∈ xs then firstDedupNames xs else firstDedupNames xs ++ [y] := by
  intro xs
  induction xs using firstDedupNames.induct with
  | case1 => simp [firstDedupNames]
  | case2 n rest ih =>
    rw [List.cons_append, firstDedupNames, firstDedupNames]
    by_cases hyn : y = n
    · subst hyn
      simp [List.filter_append]
    · rw [List.filter_append]
      have hfy : List.filter (fun m => m ≠ n) [y] = [y] := by simp [hyn]
      rw [hfy, ih]
      have hmem : y ∈ rest.filter (fun m => m ≠ n) ↔ y ∈ rest := by
        simp [List.mem_filter, hyn]
      by_cases hy : y ∈ rest
      · simp [hmem, hy, hyn]
      · simp [hmem, hy, hyn]

theorem mapSet_keys (m : List (String × JStatus)) (k : String) (v : JStatus) :
    (mapSet m k v).map Prod.fst =
      if k ∈ m.map Prod.fst then m.map Prod.fst else m.map Prod.fst ++ [k] := by
  unfold mapSet
  by_cases h : (m.any (fun p => p.1 == k)) = true
  · have hm : k ∈ m.map Prod.fst := by
      simp only [List.any_eq_true] at h
      obtain ⟨p, hp, he⟩ := h
      simp only [beq_iff_eq] at he
      exact List.mem_map.mpr ⟨p, hp, he⟩
    rw [if_pos h, if_pos hm, List.map_map]
    apply List.map_congr_left
    intro p _
    simp only [Function.comp_apply]
    by_cases hp : (p.1 == k) = true
    · rw [if_pos hp]
      simp only [beq_iff_eq] at hp
      exact hp.symm
    · rw [if_neg hp]
  · have hm : k ∉ m.map Prod.fst := by
      intro hc
      obtain ⟨p, hp, he⟩ := List.mem_map.mp hc
      exact h (List.any_eq_true.mpr ⟨p, hp, by simp [he]⟩)
    rw [if_neg h, if_neg hm, List.map_append]
    rfl

theorem mapSet_mem (m : List (String × JStatus)) (k : String) (v : JStatus)
    (p : String × JStatus) (hp : p ∈ mapSet m k v) :
    p = (k, v) ∨ (p ∈ m ∧ p.1 ≠ k) := by
  unfold mapSet at hp
  by_cases h : (m.any (fun q => q.1 == k)) = true
  · rw [if_pos h] at hp
    obtain ⟨q, hq, he⟩ := List.mem_map.mp hp
    by_cases hqk : (q.1 == k) = true
    · rw [if_pos hqk] at he
      exact .inl he.symm
    · rw [if_neg hqk] at he
      subst he
      exact .inr ⟨hq, by simpa using hqk⟩
  · rw [if_neg h] at hp
    rcases List.mem_append.mp hp with hp | hp
    · refine .inr ⟨hp, ?_⟩
      intro hc
      exact h (List.any_eq_true.mpr ⟨p, hp, by simp [hc]⟩)
    · simp only [List.mem_singleton] at hp
      exact .inl hp

theorem statuses_fold_flatten (data : List JTypeStatuses) :
    ∀ m, data.foldl (fun m2 t => t.statuses.foldl (fun m3 s => mapSet m3 s.name s) m2) m =
      (allStatuses data).foldl (fun m3 s => mapSet m3 s.name s) m := by
  induction data with
  | nil => intro m; rfl
  | cons t ts ih =>
    intro m
    rw [List.foldl_cons]
    rw [ih]
    have hall : allStatuses (t :: ts) = t.statuses ++ allStatuses ts := rfl
    rw [hall, List.foldl_append]

theorem mapModel_spec : ∀ l : List JStatus,
    ((l.foldl (fun m s => mapSet m s.name s) []).map Prod.fst =
      firstDedupNames (l.map JStatus.name)) ∧
    (∀ p ∈ l.foldl (fun m s => mapSet m s.name s) [],
      p.2.name = p.1 ∧ (l.filter (fun t => t.name == p.1)).getLast? = some p.2) := by
  intro l
  induction l using List.reverseRecOn with
  | nil => exact ⟨by simp [firstDedupNames], by simp⟩
  | append_singleton l s ih =>
    rw [List.foldl_append]
    simp only [List.foldl_cons, List.foldl_nil]
    constructor
    · rw [mapSet_keys, ih.1, List.map_append]
      simp only [List.map_cons, List.map_nil]
      rw [firstDedupNames_concat]
      by_cases hy : s.name ∈ l.map JStatus.name
      · rw [if_pos hy, if_pos ((mem_firstDedupNames _ _).mpr hy)]
      · rw [if_neg hy, if_neg (fun hc => hy ((mem_firstDedupNames _ _).mp hc))]
    · intro p hp
      rcases mapSet_mem _ _ _ p hp with rfl | ⟨hpm, hne⟩
      · refine ⟨rfl, ?_⟩
        rw [List.filter_append]
        have hs : List.filter (fun t => t.name == s.name) [s] = [s] := by simp
        rw [hs, List.getLast?_concat]
      · obtain ⟨hname, hlast⟩ := ih.2 p hpm
        refine ⟨hname, ?_⟩
        rw [List.filter_append]
        have hs : List.filter (fun t => t.name == p.1) [s] = [] := by
          simp only [List.filter_cons, List.filter_nil]
          have hb : (s.name == p.1) = false := by
            simp only [beq_eq_false_iff_ne]
            exact fun hc => hne hc.symm
          rw [hb]
          simp
        rw [hs, List.append_nil, hlast]

/-- C7 (amended): fetchProjectStatuses returns one flat list
deduplicated by status name whose entries appear in first-occurrence
order, but when two status objects from different issue types share a
name the later occurrence overwrites the stored object, so the
last-encountered status object with each name is the one kept (at the
position of the name's first occurrence). -/
theorem statuses_dedup_last_wins (data : List JTypeStatuses) :
    (fetchProjectStatuses data).map JStatus.name =
      firstDedupNames ((allStatuses data).map JStatus.name) ∧
    ∀ s ∈ fetchProjectStatuses data,
      ((allStatuses data).filter (fun t => t.name == s.name)).getLast? = some s := by
  unfold fetchProjectStatuses
  rw [statuses_fold_flatten]
  obtain ⟨hkeys, hmem⟩ := mapModel_spec (allStatuses data)
  constructor
  · rw [List.map_map, ← hkeys]
    apply List.map_congr_left
    intro p hp
    exact (hmem p hp).1
  · intro s hs
    obtain ⟨p, hp, hps⟩ := List.mem_map.mp hs
    obtain ⟨hname, hlast⟩ := hmem p hp
    rw [← hps, hname]
    exact hlast

/-- Counterexample to C7 as stated: with two issue types reporting
different status objects named "Done", the kept object is the later
one (id "2"), not the first-encountered one (id "1"). -/
theorem statuses_dedup_counterexample :
    fetchProjectStatuses sData = [⟨"Done", "2"⟩, ⟨"Open", "3"⟩] ∧
    JStatus.mk "Done" "1" ∉ fetchProjectStatuses sData := by
  constructor
  · rfl
  · decide

/-- Witness for the amended statuses theorem at the concrete response. -/
theorem statuses_dedup_last_wins_witness :
    (fetchProjectStatuses sData).map JStatus.name =
      firstDedupNames ((allStatuses sData).map JStatus.name) :=
  (statuses_dedup_last_wins sData).1

theorem ContainsInOrder_append_left (pre : List Char) :
    ∀ (frags : List (List Char)) (s : List Char),
    ContainsInOrder frags s → ContainsInOrder frags (pre ++ s) := by
  intro frags s h
  cases frags with
  | nil => trivial
  | cons f rest =>
    obtain ⟨p, q, hs, hr⟩ := h
    exact ⟨pre ++ p, q, by rw [hs]; simp, hr⟩

theorem ContainsInOrder_drop_head (f : List Char) (rest : List (List Char)) (s : List Char)
    (h : ContainsInOrder (f :: rest) s) : ContainsInOrder rest s := by
  obtain ⟨p, q, hs, hr⟩ := h
  subst hs
  have := ContainsInOrder_append_left (p ++ f) rest q hr
  simpa using this

theorem joinSp_CIOL : ∀ ts : List String,
    ContainsInOrder (ts.map String.toList) (joinSp ts).toList := by
  intro ts
  induction ts with
  | nil => trivial
  | cons a rest ih =>
    cases rest with
    | nil => exact ⟨[], [], by simp [joinSp], trivial⟩
    | cons b rest2 =>
      refine ⟨[], ' ' :: (joinSp (b :: rest2)).toList, ?_, ?_⟩
      · show (joinSp (a :: b :: rest2)).toList = [] ++ a.toList ++ (' ' :: (joinSp (b :: rest2)).toList)
        simp [joinSp]
      · exact ContainsInOrder_append_left [' '] _ _ ih

theorem cio_complete : ∀ (frags : List (List Char)) (s : List Char),
    ContainsInOrder frags s → cioB frags s = true := by
  intro frags
  induction frags with
  | nil => intro s _; rfl
  | cons f rest ih =>
    intro s h
    obtain ⟨pre, post, hs, hr⟩ := h
    subst hs
    unfold cioB
    rw [List.any_eq_true]
    refine ⟨pre.length, List.mem_range.mpr ?_, ?_⟩
    · simp [List.length_append]
      omega
    · rw [Bool.and_eq_true]
      constructor
      · have hd : (pre ++ f ++ post).drop pre.length = f ++ post := by
          rw [List.append_assoc]
          exact List.drop_left pre (f ++ post)
        rw [hd, List.take_left]
        simp
      · have hd : (pre ++ f ++ post).drop (pre.length + f.length) = post := by
          have hlen : pre.length + f.length = (pre ++ f).length := (List.length_append _ _).symm
          rw [hlen]
          exact List.drop_left (pre ++ f) post
        rw [hd]
        exact ih post hr

theorem trimL_eq_self (c d : Char) (mid : List Char)
    (h1 : jsWsB c = false) (h2 : jsWsB d = false) :
    trimL (c :: (mid ++ [d])) = c :: (mid ++ [d]) := by
  unfold trimL
  have hfront : (c :: (mid ++ [d])).dropWhile jsWsB = c :: (mid ++ [d]) := by
    rw [List.dropWhile_cons, h1]
    simp
  rw [hfront]
  have hrev : (c :: (mid ++ [d])).reverse = d :: (mid.reverse ++ [c]) := by
    simp
  rw [hrev, List.dropWhile_cons, h2]
  simp

theorem collectTextsList_items : ∀ acs : List String,
    collectTextsList (acs.map (fun ac =>
      Adf.mk "listItem" "" [Adf.mk "paragraph" "" [Adf.mk "text" ac []]])) = acs := by
  intro acs
  induction acs with
  | nil => rfl
  | cons a rest ih =>
    simp only [List.map_cons]
    rw [collectTextsList]
    rw [ih]
    rfl

theorem collectTexts_buildAdf (d : String) (acs : List String)
    (hd : d ≠ "") (hacs : acs ≠ []) :
    collectTexts (buildAdf d acs) = d :: "Acceptance Criteria" :: acs := by
  unfold buildAdf
  rw [if_pos hd, if_pos (by cases acs with | nil => exact absurd rfl hacs | cons a r => simp)]
  simp [collectTexts, collectTextsList, collectTextsList_items]

theorem str_toList_append (a b : String) : (a ++ b).toList = a.toList ++ b.toList := rfl

theorem joinSp_cons_cons (a b : String) (r : List String) :
    (joinSp (a :: b :: r)).toList = a.toList ++ ' ' :: (joinSp (b :: r)).toList := by
  show (a ++ " " ++ joinSp (b :: r)).toList = _
  rw [str_toList_append, str_toList_append]
  simp

theorem joinSp_last : ∀ (ts : List String) (a : String),
    ts.getLast? = some a → ∃ pre, (joinSp ts).toList = pre ++ a.toList := by
  intro ts
  induction ts with
  | nil => intro a h; simp at h
  | cons a0 rest ih =>
    intro a h
    cases rest with
    | nil =>
      simp at h
      subst h
      exact ⟨[], by simp [joinSp]⟩
    | cons b r2 =>
      rw [List.getLast?_cons_cons] at h
      obtain ⟨pre, hp⟩ := ih a h
      refine ⟨a0.toList ++ ' ' :: pre, ?_⟩
      rw [joinSp_cons_cons, hp]
      simp

theorem getLast?_eq_getLastD_str (l : List String) (h : l ≠ []) :
    l.getLast? = some (l.getLastD "") := by
  rcases hx : l.getLast? with _ | x
  · rw [List.getLast?_eq_none_iff] at hx
    exact absurd hx h
  · rw [List.getLastD_eq_getLast?, hx]
    rfl

/-- C8 (amended): extracting the plain text of the document built from
a non-empty description and a non-empty acceptance-criteria list yields
a string containing the description and every criterion contiguously,
disjointly and in order — provided the description starts with a
non-whitespace character and the last acceptance criterion ends with a
non-whitespace character (otherwise the final trim can cut into the
first or last fragment). -/
theorem adf_roundtrip_contains (d : String) (acs : List String)
    (h1 : headNonWs d = true) (h2 : acs ≠ [])
    (h3 : lastNonWs (acs.getLastD "") = true) :
    ContainsInOrder ((d :: acs).map String.toList)
      (extractAdfText (buildAdf d acs)).toList := by
  -- decompose the description's head character
  unfold headNonWs at h1
  rcases hdl : d.toList with _ | ⟨c, cs⟩
  · rw [hdl] at h1; simp at h1
  · rw [hdl] at h1
    simp only [Bool.not_eq_true'] at h1
    have hdne : d ≠ "" := by
      intro h; rw [h] at hdl; simp at hdl
    -- decompose the last criterion's last character
    unfold lastNonWs at h3
    rcases hrl : (acs.getLastD "").toList.reverse with _ | ⟨e, es⟩
    · rw [hrl] at h3; simp at h3
    · rw [hrl] at h3
      simp only [Bool.not_eq_true'] at h3
      have hlast : (acs.getLastD "").toList = es.reverse ++ [e] := by
        have hr := congrArg List.reverse hrl
        rw [List.reverse_reverse] at hr
        rw [hr]; simp
      -- the collected texts
      have htexts := collectTexts_buildAdf d acs hdne h2
      unfold extractAdfText
      rw [htexts]
      -- the joined character list, from both ends
      have hL1 : (joinSp (d :: "Acceptance Criteria" :: acs)).toList =
          c :: (cs ++ ' ' :: (joinSp ("Acceptance Criteria" :: acs)).toList) := by
        rw [joinSp_cons_cons, hdl]
        simp
      have hlg : (d :: "Acceptance Criteria" :: acs).getLast? = some (acs.getLastD "") := by
        rw [List.getLast?_cons_cons]
        rcases hacs : acs with _ | ⟨a1, ar⟩
        · exact absurd hacs h2
        · rw [List.getLast?_cons_cons]
          exact getLast?_eq_getLastD_str _ (by simp)
      obtain ⟨pre, hL2⟩ := joinSp_last _ _ hlg
      rw [hlast] at hL2
      have hL2x : (joinSp (d :: "Acceptance Criteria" :: acs)).toList =
          (pre ++ es.reverse) ++ [e] := by
        rw [hL2]; simp
      rcases hy : pre ++ es.reverse with _ | ⟨c2, y2⟩
      · rw [hy] at hL2x
        have hbad := hL1.symm.trans hL2x
        simp at hbad
      · rw [hy] at hL2x
        have hinj := hL1.symm.trans hL2x
        simp only [List.cons_append, List.cons.injEq] at hinj
        have hLshape : (joinSp (d :: "Acceptance Criteria" :: acs)).toList =
            c :: (y2 ++ [e]) := by
          rw [hL1, hinj.2]
      -- trimming is the identity here
        have htrim : trimL (joinSp (d :: "Acceptance Criteria" :: acs)).toList =
            (joinSp (d :: "Acceptance Criteria" :: acs)).toList := by
          rw [hLshape]
          exact trimL_eq_self c e y2 h1 h3
        show ContainsInOrder _ (jsTrimStr (joinSp (d :: "Acceptance Criteria" :: acs))).toList
        have hjt : (jsTrimStr (joinSp (d :: "Acceptance Criteria" :: acs))).toList =
            trimL (joinSp (d :: "Acceptance Criteria" :: acs)).toList := rfl
        rw [hjt, htrim]
      -- containment including the heading fragment, then drop the heading
        have hall := joinSp_CIOL (d :: "Acceptance Criteria" :: acs)
        simp only [List.map_cons] at hall ⊢
        obtain ⟨p, q, hsp, hr⟩ := hall
        exact ⟨p, q, hsp, ContainsInOrder_drop_head _ _ _ hr⟩

/-- Counterexample to C8 as stated: a description with leading
whitespace (or a final criterion with trailing whitespace) is no longer
contained in the extracted text, because the trim applied after joining
removes those characters. -/
theorem adf_roundtrip_counterexample :
    ¬ ContainsInOrder ([" a", "b"].map String.toList)
        (extractAdfText (buildAdf " a" ["b"])).toList ∧
    ¬ ContainsInOrder (["a", "b "].map String.toList)
        (extractAdfText (buildAdf "a" ["b "])).toList := by
  constructor
  · intro h
    have hb := cio_complete _ _ h
    revert hb
    decide
  · intro h
    have hb := cio_complete _ _ h
    revert hb
    decide

/-- Witness for the amended round-trip theorem at a concrete
description and criteria list. -/
theorem adf_roundtrip_contains_witness :
    ContainsInOrder (("Setup" :: ["Works", "Fast"]).map String.toList)
      (extractAdfText (buildAdf "Setup" ["Works", "Fast"])).toList :=
  adf_roundtrip_contains "Setup" ["Works", "Fast"] (by decide) (by decide) (by decide)

theorem dropWhile_append_split (p : Char → Bool) :
    ∀ (l1 l2 : List Char), (l1 ++ l2).dropWhile p =
      if (l1.dropWhile p).isEmpty then l2.dropWhile p else l1.dropWhile p ++ l2 := by
  intro l1
  induction l1 with
  | nil => intro l2; simp
  | cons a t ih =>
    intro l2
    by_cases ha : p a = true
    · simp only [List.cons_append, List.dropWhile_cons, ha]
      simp only [if_true]
      exact ih l2
    · rw [Bool.not_eq_true] at ha
      simp [List.dropWhile_cons, ha]

theorem dropWhile_head_false (p : Char → Bool) :
    ∀ (l : List Char) (c : Char) (cs : List Char), l.dropWhile p = c :: cs → p c = false := by
  intro l
  induction l with
  | nil => intro c cs h; simp at h
  | cons a t ih =>
    intro c cs h
    rw [List.dropWhile_cons] at h
    by_cases ha : p a = true
    · rw [if_pos ha] at h
      exact ih c cs h
    · rw [if_neg ha] at h
      cases h
      exact Bool.not_eq_true _ ▸ ha

theorem stripSuffixFence_mk (l : List Char) :
    stripSuffixFence (String.mk l) =
      (if ((l.reverse.dropWhile jsWsB).take 3 = [btick, btick, btick]) then
        String.mk (((l.reverse.dropWhile jsWsB).drop 3).reverse)
      else String.mk l) := rfl

theorem stripFences_json_fence (s : String) :
    stripFences ("```json\n" ++ s ++ "\n```") = jsTrimStr s := by
  have hw : ("```json\n" ++ s ++ "\n```").toList =
      "```json".toList ++ ('\n' :: (s.toList ++ ('\n' :: [btick, btick, btick]))) := by
    show ("```json\n".toList ++ s.toList) ++ "\n```".toList = _
    have h1 : "```json\n".toList = "```json".toList ++ ['\n'] := by decide
    have h2 : "\n```".toList = '\n' :: [btick, btick, btick] := by decide
    rw [h1, h2]
    simp
  have hlen7 : ("```json".toList).length = 7 := by decide
  unfold stripFences stripPrefixFence
  simp only [hw]
  rw [List.take_left' hlen7, List.drop_left' hlen7]
  rw [if_pos (by decide)]
  rw [List.dropWhile_cons]
  rw [if_pos (by decide)]
  rw [dropWhile_append_split]
  rcases hs : s.toList.dropWhile jsWsB with _ | ⟨c, cs2⟩
  · simp only [List.nil_append, List.isEmpty_nil, if_true]
    have hticks : ('\n' :: [btick, btick, btick]).dropWhile jsWsB = [btick, btick, btick] := by
      decide
    rw [hticks]
    have hsuf : stripSuffixFence (String.mk [btick, btick, btick]) = String.mk [] := by
      decide
    rw [hsuf]
    show String.mk (trimL []) = String.mk (trimL s.toList)
    have hrhs : trimL s.toList = [] := by
      unfold trimL
      rw [hs]
      simp
    rw [hrhs]
    rfl
  · have hc : jsWsB c = false := dropWhile_head_false jsWsB s.toList c cs2 hs
    simp only [List.isEmpty_cons, Bool.false_eq_true, if_false]
    have hsuf : stripSuffixFence (String.mk ((c :: cs2) ++ ('\n' :: [btick, btick, btick]))) =
        String.mk ((c :: cs2) ++ ['\n']) := by
      have hrev : ((c :: cs2) ++ ('\n' :: [btick, btick, btick])).reverse =
          btick :: btick :: btick :: '\n' :: (c :: cs2).reverse := by
        rw [List.reverse_append]
        have h3 : ('\n' :: [btick, btick, btick]).reverse = [btick, btick, btick, '\n'] := by
          decide
        rw [h3]
        simp
      have hdw : (btick :: btick :: btick :: '\n' :: (c :: cs2).reverse).dropWhile jsWsB =
          btick :: btick :: btick :: '\n' :: (c :: cs2).reverse := by
        rw [List.dropWhile_cons, if_neg (by decide)]
      rw [stripSuffixFence_mk, hrev, hdw, if_pos (by rfl)]
      congr 1
      simp
    rw [hsuf]
    show String.mk (trimL ((c :: cs2) ++ ['\n'])) = String.mk (trimL s.toList)
    congr 1
    unfold trimL
    rw [hs]
    have h1 : ((c :: cs2) ++ ['\n']).dropWhile jsWsB = (c :: cs2) ++ ['\n'] := by
      rw [List.cons_append, List.dropWhile_cons, hc]
      simp
    rw [h1]
    have h2 : ((c :: cs2) ++ ['\n']).reverse = '\n' :: (c :: cs2).reverse := by
      rw [List.reverse_append]
      simp
    rw [h2, List.dropWhile_cons]
    rw [if_pos (by decide)]

theorem groqProcessParsed_ne_invalid (v : JVal) (n : Nat) :
    groqProcessParsed v n ≠ .error .invalidJSON := by
  unfold groqProcessParsed
  split
  · simp
  · split <;> simp

theorem groqProcessParsed_missing_iff (v : JVal) (n : Nat) :
    groqProcessParsed v n = .error .missingSubtasks ↔
      (v ≠ JVal.null ∧ subtasksArrOf v = none) := by
  unfold groqProcessParsed subtasksArrOf
  cases v with
  | null => simp [jsGetField]
  | bool b => simp [jsGetField]
  | num q => simp [jsGetField]
  | str s => simp [jsGetField]
  | arr l => simp [jsGetField]
  | obj fields =>
    simp only [jsGetField]
    rcases hf : fields.reverse.find? (fun p => p.1 = "subtasks") with _ | p
    · rw [hf]
      simp
    · rcases p with ⟨k, pv⟩
      rw [hf]
      cases pv <;> simp

/-- C6 (amended): the invalid-JSON generation error occurs exactly when
the body is not parseable after stripping, and the missing-subtasks
error exactly when the parsed value is non-null and lacks a subtasks
array (a parsed JSON null raises a property-access type error instead);
the defensive stripping removes a leading ```json fence and a trailing
fence, reducing such a wrapped body to its trimmed inner body — but a
fence without the json tag is not stripped. -/
theorem groq_parse_error_discipline (raw : String) (n : Nat) :
    (groqGenerate raw n = .error .invalidJSON ↔ jsonParse (stripFences raw) = none) ∧
    (groqGenerate raw n = .error .missingSubtasks ↔
      ∃ v, jsonParse (stripFences raw) = some v ∧ v ≠ JVal.null ∧ subtasksArrOf v = none) ∧
    (∀ s, stripFences ("```json\n" ++ s ++ "\n```") = jsTrimStr s) := by
  refine ⟨?_, ?_, stripFences_json_fence⟩
  · unfold groqGenerate
    rcases hp : jsonParse (stripFences raw) with _ | v
    · simp
    · simp [groqProcessParsed_ne_invalid v n]
  · unfold groqGenerate
    rcases hp : jsonParse (stripFences raw) with _ | v
    · simp
    · simp [groqProcessParsed_missing_iff v n]

/-- Counterexample to C6 as stated: a body wrapped in plain ``` fences
(no json tag) whose inner content is valid JSON still fails with the
invalid-JSON error, because only a leading ```json fence is stripped;
and a body "null" parses but raises a property-access type error, not
the missing-subtasks generation error. -/
theorem groq_fence_counterexample :
    groqGenerate ("```" ++ "\n" ++ "\x7b\"subtasks\": []\x7d" ++ "\n" ++ "```") 5 =
      .error .invalidJSON ∧
    jsonParse "\x7b\"subtasks\": []\x7d" = some (JVal.obj [("subtasks", JVal.arr [])]) ∧
    groqGenerate "null" 5 = .error .typeError := by
  refine ⟨rfl, rfl, rfl⟩

/-- Witness instantiating the amended error-discipline theorem at a
concrete body. -/
theorem groq_parse_error_discipline_witness :
    (groqGenerate "\x7b\"a\": 1\x7d" 5 = .error .missingSubtasks ↔
      ∃ v, jsonParse (stripFences "\x7b\"a\": 1\x7d") = some v ∧ v ≠ JVal.null ∧
        subtasksArrOf v = none) :=
  (groq_parse_error_discipline "\x7b\"a\": 1\x7d" 5).2.1
